import Mathlib

/-!
Verification of the smartphone-battery backend's per-device signal-processing
pipeline (SoH / EFC / throughput / feature-engineering core) against its
natural-language specification.

The Python source is shallowly embedded over ℚ:
* a pandas column is a `List (Option ℚ)` — `none` models a missing value (NaN);
* dataframe rows are structures; per-device grouped operations are explicit;
* float division that can produce non-finite values (÷0) is modelled by
  `Option`-valued division or by an explicit nonzero hypothesis;
* the `try/except` wrappers are modelled with `Except`.
-/

namespace Battery

/-- Clip a value into `[lo, hi]`, as `pandas.Series.clip(lower, upper)` does
pointwise on non-missing values: first raise to `lo`, then cap at `hi`. -/
def clip (lo hi x : ℚ) : ℚ := min (max x lo) hi

/-- Insertion into a sorted `ℚ` list (ascending). -/
def insertQ (x : ℚ) : List ℚ → List ℚ
  | [] => [x]
  | y :: ys => if x ≤ y then x :: y :: ys else y :: insertQ x ys

/-- Ascending insertion sort on `ℚ`, used to embed the sorting performed
inside `numpy.percentile` / `pandas.Series.median`. -/
def sortQ : List ℚ → List ℚ
  | [] => []
  | x :: xs => insertQ x (sortQ xs)

/-- Median of a list of (valid) values, after sorting: middle element for odd
length, mean of the two middle elements for even length.  Returns `none` on an
empty list (pandas: median of no valid values is NaN). -/
def medianQ (l : List ℚ) : Option ℚ :=
  let s := sortQ l
  let m := s.length
  if m = 0 then none
  else if m % 2 = 1 then some (s.getD (m / 2) 0)
  else some ((s.getD (m / 2 - 1) 0 + s.getD (m / 2) 0) / 2)

/-- Linear-interpolation percentile of a *sorted, nonempty* list, exactly as
`numpy.percentile(v, 100*p)` with the default linear interpolation:
position `p * (m-1)`, interpolating between the two neighbouring order
statistics. `p` is given as a fraction in `[0,1]`. -/
def interpPercentile (s : List ℚ) (p : ℚ) : ℚ :=
  let m := s.length
  let pos := p * ((m : ℚ) - 1)
  let lo := (Int.floor pos).toNat
  let frac := pos - (lo : ℚ)
  let a := s.getD lo 0
  let b := s.getD (lo + 1) (s.getD lo 0)
  a + frac * (b - a)

/-- `numpy.(nan)percentile` / `pandas.Series.quantile` on a list of valid
values: sort, then linearly interpolate.  `none` on an empty list. -/
def percentileQ (l : List ℚ) (p : ℚ) : Option ℚ :=
  if l.isEmpty then none else some (interpPercentile (sortQ l) p)

/-- Cumulative sums (`pandas.Series.cumsum` on a NaN-free column): entry `i`
is the sum of the first `i+1` entries. -/
def cumsum (l : List ℚ) : List ℚ :=
  (List.range l.length).map (fun i => ((l.take (i + 1)).sum))

/-! ## RUL estimator (`src/api/controller/prediction_controller.py`,
`estimate_rul_from_soh`) -/

/-- Result record of `estimate_rul_from_soh`. -/
structure RulResult where
  rul_cycles : ℚ
  rul_hours : ℚ
  rul_months : ℚ
  rul_years : ℚ
  deriving DecidableEq, Repr

/-- `estimate_rul_from_soh`: from a predicted SoH and the three configuration
constants `k_global`, `soh_eol`, `hours_per_cycle`. -/
def estimate_rul_from_soh (soh_pred soh_eol k_global hours_per_cycle : ℚ) :
    RulResult :=
  let delta_soh := soh_pred - soh_eol
  let rul_cycles := max (delta_soh / k_global) 0
  let rul_hours := rul_cycles * hours_per_cycle
  let rul_days := rul_hours / 24
  { rul_cycles := rul_cycles
    rul_hours := rul_hours
    rul_months := rul_days / 30
    rul_years := rul_days / 365 }

/-! ## Per-device z-score (`src/core/feature_engineering.py`,
`add_per_device_zscore`) -/

/-- Population mean of the valid values (`pandas.Series.mean`, NaN-skipping). -/
def popMean (l : List ℚ) : ℚ := l.sum / l.length

/-- Population variance of the valid values (`std(ddof=0)` squared). -/
def popVar (l : List ℚ) : ℚ := (l.map (fun x => (x - popMean l) ^ 2)).sum / l.length

/-- One column of one device group in `add_per_device_zscore`.  `sq` embeds
the square root taken by `pandas.Series.std(ddof=0)`; the guard branch
(`sigma == 0 or isnan(sigma)`) is decided on the population variance, since
`sigma = 0 ↔ variance = 0` and `sigma` is NaN exactly when there is no valid
value; the `sq` parameter is only evaluated on the non-degenerate branch. -/
def zColumn (sq : ℚ → ℚ) (col : List (Option ℚ)) : List (Option ℚ) :=
  if (col.filterMap id).length = 0 then
    List.replicate col.length (some 0)
  else if popVar (col.filterMap id) = 0 then
    List.replicate col.length (some 0)
  else
    col.map (Option.map (fun x =>
      (x - popMean (col.filterMap id)) / sq (popVar (col.filterMap id))))

/-! ## SoH clipping stage (`src/core/soh_cycles.py`, lines 150–156) -/

/-- `df["SoH"] = (df["Ct_mAh"] / C0_ref).clip(lower=0.0, upper=1.2)`:
missing `Ct` stays missing, valid `Ct` is divided and clipped. -/
def sohColumn (ct : List (Option ℚ)) (C0_ref : ℚ) : List (Option ℚ) :=
  ct.map (Option.map (fun c => clip 0 (12 / 10) (c / C0_ref)))

/-! ## Hampel filter (`src/core/soh_cycles.py`, `_hampel`) -/

/-- `abs` on ℚ written with an explicit branch (`pandas.Series.abs`
pointwise). -/
def qabs (x : ℚ) : ℚ := if x < 0 then -x else x

/-- The centered rolling window of width `2k+1` at position `i`:
indices `i-k … i+k` clamped to the series. -/
def winSlice (s : List (Option ℚ)) (k i : ℕ) : List (Option ℚ) :=
  (s.drop (i - k)).take (i + k + 1 - (i - k))

/-- `Series.rolling(window=2k+1, center=True, min_periods=minp).median()`:
at each position, the median of the valid values in the centered window if at
least `minp` of them exist, else missing. -/
def rollingMedianC (s : List (Option ℚ)) (k minp : ℕ) : List (Option ℚ) :=
  (List.range s.length).map (fun i =>
    let v := (winSlice s k i).filterMap id
    if minp ≤ v.length then medianQ v else none)

/-- `(s - med).abs()`: pointwise `|s_i − med_i|`, missing whenever either
operand is missing. -/
def seriesSubAbs (s med : List (Option ℚ)) : List (Option ℚ) :=
  List.zipWith (fun x m => x.bind (fun a => m.map (fun b => qabs (a - b)))) s med

/-- The outlier mask of `_hampel`: `med` and `mad` are centered rolling
medians (window `2k+1`, `min_periods=3`), `thresh = nsigma·1.4826·mad`, and a
point is an outlier iff `|s−med| > thresh`; comparisons against missing
values are `False`, as in pandas. -/
def hampelOutlier (s : List (Option ℚ)) (k : ℕ) (nsigma : ℚ) : List Bool :=
  let med := rollingMedianC s k 3
  let dev := seriesSubAbs s med
  let mad := rollingMedianC dev k 3
  let thresh := mad.map (Option.map (fun m => nsigma * (14826 / 10000) * m))
  List.zipWith (fun d t =>
    match d, t with
    | some dv, some tv => decide (tv < dv)
    | _, _ => false) dev thresh

/-- `_hampel`: outliers are replaced by a missing value (`s[outlier] = nan`),
everything else is returned unchanged. -/
def hampel (s : List (Option ℚ)) (k : ℕ) (nsigma : ℚ) : List (Option ℚ) :=
  List.zipWith (fun o x => if o then none else x) (hampelOutlier s k nsigma) s

/-! ## EFC stage (`src/core/soh_cycles.py`, lines 158–165) -/

/-- `pandas.Series.diff`: first entry missing, entry `i` is
`s_i − s_{i−1}` (missing if either operand is missing). -/
def diffOpt : List (Option ℚ) → List (Option ℚ)
  | [] => []
  | x :: xs =>
    none :: List.zipWith
      (fun a b => a.bind (fun p => b.map (fun q => q - p))) (x :: xs) xs

/-- `df["delta_Q_mAh"] = df["Q_mAh"].diff().fillna(0)`. -/
def deltaQColumn (Q : List (Option ℚ)) : List ℚ :=
  (diffOpt Q).map (fun o => o.getD 0)

/-- `df["discharge_mAh"] = np.where(delta_Q < 0, -delta_Q, 0.0)`. -/
def dischargeColumn (Q : List (Option ℚ)) : List ℚ :=
  (deltaQColumn Q).map (fun d => if d < 0 then -d else 0)

/-- Cap the discharge column at its own 99th percentile
(`q99 = discharge.quantile(0.99); df.loc[discharge > q99] = q99`);
on an empty series the quantile is missing and the comparison never holds. -/
def cappedDischarge (Q : List (Option ℚ)) : List ℚ :=
  (percentileQ (dischargeColumn Q) (99 / 100)).elim (dischargeColumn Q)
    (fun q99 => (dischargeColumn Q).map (fun d => if q99 < d then q99 else d))

/-- `df["EFC"] = df["discharge_mAh"].cumsum() / C0_ref`. -/
def efcColumn (Q : List (Option ℚ)) (C0_ref : ℚ) : List ℚ :=
  (cumsum (cappedDischarge Q)).map (fun x => x / C0_ref)

/-! ## Throughput / energy / BoT
(`src/core/throughput_energy.py`) -/

/-- One raw telemetry row, with the columns used by the throughput/energy
branch.  `device` stands for `device_id`, `ts` for `created_at` (seconds). -/
structure TRow where
  device : ℕ
  ts : ℚ
  tx : Option ℚ
  rx : Option ℚ
  voltage_mv : Option ℚ
  current_ua : Option ℚ
  temp : Option ℚ
  deriving DecidableEq, Repr

/-- Lexicographic `(device_id, created_at)` sort key comparison used by
`df.sort_values([DEVICE_COL, TIMESTAMP_COL])`. -/
def keyLE (a b : ℕ × ℚ) : Bool :=
  a.1 < b.1 || (a.1 == b.1 && a.2 ≤ b.2)

/-- Stable insertion for the sort by `(device_id, created_at)`. -/
def insertByKey {α : Type} (key : α → ℕ × ℚ) (x : α) : List α → List α
  | [] => [x]
  | y :: ys =>
    if keyLE (key x) (key y) then x :: y :: ys else y :: insertByKey key x ys

/-- Stable sort by `(device_id, created_at)` (a deterministic embedding of
`df.sort_values([DEVICE_COL, TIMESTAMP_COL])`; ties keep input order). -/
def sortByKey {α : Type} (key : α → ℕ × ℚ) : List α → List α
  | [] => []
  | x :: xs => insertByKey key x (sortByKey key xs)

/-- `base_guard`: parse timestamps and sort by `(device_id, created_at)`. -/
def sortRows (rows : List TRow) : List TRow :=
  sortByKey (fun r => (r.device, r.ts)) rows

/-- A row after the per-device `groupby(...).diff()` step of
`calculate_throughput`: the original row plus `delta_t`,
`delta_tx_bytes`, `delta_rx_bytes` (missing on the first row of a device). -/
structure DRow where
  row : TRow
  delta_t : Option ℚ
  delta_tx : Option ℚ
  delta_rx : Option ℚ
  deriving DecidableEq, Repr

/-- `groupby(DEVICE_COL)[...].diff()`: each row is paired with the deltas to
the *previous row of the same device*; `st` carries the last row seen per
device (none before the first). -/
def addDiffs (st : ℕ → Option TRow) : List TRow → List DRow
  | [] => []
  | r :: rs =>
    { row := r
      delta_t := (st r.device).map (fun p => r.ts - p.ts)
      delta_tx := (st r.device).bind
        (fun p => p.tx.bind (fun a => r.tx.map (fun b => b - a)))
      delta_rx := (st r.device).bind
        (fun p => p.rx.bind (fun a => r.rx.map (fun b => b - a))) } ::
      addDiffs (fun d => if d = r.device then some r else st d) rs

/-- Division whose float result would be non-finite (`±inf`/`NaN`) when the
denominator is zero; such results are modelled as missing. -/
def safeDiv (a b : ℚ) : Option ℚ := if b = 0 then none else some (a / b)

/-- One output row of `calculate_throughput`. -/
structure TPRow where
  device : ℕ
  ts : ℚ
  delta_t : ℚ
  delta_tx : ℚ
  delta_rx : ℚ
  up_bps : Option ℚ
  down_bps : Option ℚ
  total_bps : Option ℚ
  up_mbps : Option ℚ
  down_mbps : Option ℚ
  total_mbps : Option ℚ
  deriving DecidableEq, Repr

/-- The arithmetic tail of `calculate_throughput` (lines 62–71): bits per
second from byte deltas, divided by `delta_t`, then Mbps. -/
def mkTPRow (d : DRow) : TPRow :=
  { device := d.row.device
    ts := d.row.ts
    delta_t := d.delta_t.getD 0
    delta_tx := d.delta_tx.getD 0
    delta_rx := d.delta_rx.getD 0
    up_bps := safeDiv (d.delta_tx.getD 0 * 8) (d.delta_t.getD 0)
    down_bps := safeDiv (d.delta_rx.getD 0 * 8) (d.delta_t.getD 0)
    total_bps :=
      safeDiv ((d.delta_tx.getD 0 + d.delta_rx.getD 0) * 8) (d.delta_t.getD 0)
    up_mbps := (safeDiv (d.delta_tx.getD 0 * 8) (d.delta_t.getD 0)).map
      (fun x => x / 1000000)
    down_mbps := (safeDiv (d.delta_rx.getD 0 * 8) (d.delta_t.getD 0)).map
      (fun x => x / 1000000)
    total_mbps :=
      (safeDiv ((d.delta_tx.getD 0 + d.delta_rx.getD 0) * 8)
        (d.delta_t.getD 0)).map (fun x => x / 1000000) }

/-- The `dropna(subset=["delta_t","delta_tx_bytes","delta_rx_bytes"])` step
followed by the rate computation.  Note the source drops only missing deltas
(first row of each device); `delta_t == 0` rows survive. -/
def throughputRows (l : List DRow) : List TPRow :=
  (l.filter (fun d =>
    d.delta_t.isSome && d.delta_tx.isSome && d.delta_rx.isSome)).map mkTPRow

/-- `calculate_throughput`: `base_guard` sort, `dropna` on the byte
counters, per-device diffs, `dropna` on the deltas, then the rates. -/
def calculate_throughput (rows : List TRow) : List TPRow :=
  throughputRows (addDiffs (fun _ => none)
    ((sortRows rows).filter (fun r => r.tx.isSome && r.rx.isSome)))

/-- One output row of `calculate_energy_consumption`. -/
structure ERow where
  device : ℕ
  ts : ℚ
  delta_t : Option ℚ
  batt_voltage_v : Option ℚ
  batt_current_a : Option ℚ
  energy_wh : Option ℚ
  batt_temp_c : Option ℚ
  deriving DecidableEq, Repr

/-- Per-device `delta_t` plus
`energy_wh = batt_voltage_v · batt_current_a · delta_t / 3600`. -/
def addEnergy (st : ℕ → Option TRow) : List TRow → List ERow
  | [] => []
  | r :: rs =>
    { device := r.device
      ts := r.ts
      delta_t := (st r.device).map (fun p => r.ts - p.ts)
      batt_voltage_v := r.voltage_mv.map (fun v => v / 1000)
      batt_current_a := r.current_ua.map (fun c => c / 1000000)
      energy_wh :=
        (st r.device).bind (fun p => r.voltage_mv.bind (fun v =>
          r.current_ua.map (fun c =>
            (v / 1000) * (c / 1000000) * (r.ts - p.ts) / 3600)))
      batt_temp_c := r.temp } ::
      addEnergy (fun d => if d = r.device then some r else st d) rs

/-- `calculate_energy_consumption`: `base_guard` sort, then voltage/current
conversion and `energy_wh` (no row is dropped). -/
def calculate_energy_consumption (rows : List TRow) : List ERow :=
  addEnergy (fun _ => none) (sortRows rows)

/-- `pd.merge(..., on=[device_id, created_at], how="inner")` of the
throughput and energy frames: every pair of rows agreeing on both keys, in
left-frame order. -/
def mergeTE (thr : List TPRow) (eng : List ERow) : List (TPRow × ERow) :=
  thr.flatMap (fun t =>
    (eng.filter (fun e => e.device == t.device && e.ts == t.ts)).map
      (fun e => (t, e)))

/-- One output row of `calculate_throughput_energy_and_bot`. -/
structure MRow where
  device : ℕ
  ts : ℚ
  total_bps : Option ℚ
  total_mbps : Option ℚ
  batt_voltage_v : Option ℚ
  energy_wh : Option ℚ
  batt_temp_c : Option ℚ
  epb_tx_J : Option ℚ
  epb_rx_J : Option ℚ
  epb_avg_J : Option ℚ
  bot : Option ℚ
  deriving DecidableEq, Repr

/-- The energy-per-bit and BoT arithmetic of
`calculate_throughput_energy_and_bot` (lines 126–142): zero throughput is
replaced by a missing value before the division; `BoT_mAh_per_Gbps =
energy_per_bit_avg_J · 8e9 / V_avg · (1000/3600)` where `V_avg` is the mean
battery voltage **over the whole merged batch** (every device). -/
def mkMRow (vavg : Option ℚ) (m : TPRow × ERow) : MRow :=
  let tp : Option ℚ := m.1.total_bps.bind
    (fun t => if t = 0 then none else some t)
  let etxJ := tp.map (fun t => (446 / t + 3381132 / 1000000) * (1 / 1000000000))
  let erxJ := tp.map
    (fun t => (3575443 / 10000 / t + 1969068 / 1000000) * (1 / 1000000000))
  let eavg := tp.map (fun t =>
    ((446 / t + 3381132 / 1000000) * (1 / 1000000000)
      + (3575443 / 10000 / t + 1969068 / 1000000) * (1 / 1000000000)) / 2)
  { device := m.1.device
    ts := m.1.ts
    total_bps := tp
    total_mbps := m.1.total_mbps
    batt_voltage_v := m.2.batt_voltage_v
    energy_wh := m.2.energy_wh
    batt_temp_c := m.2.batt_temp_c
    epb_tx_J := etxJ
    epb_rx_J := erxJ
    epb_avg_J := eavg
    bot := eavg.bind (fun e => vavg.bind (fun v =>
      if v = 0 then none else some (e * 8000000000 / v * (1000 / 3600)))) }

/-- `calculate_throughput_energy_and_bot`: sort, compute both branches,
inner-merge on `(device_id, created_at)`, sort the merged frame, then
energy-per-bit and BoT with `V_avg = merged["batt_voltage_v"].mean()`
taken across all rows of the batch. -/
def calculate_throughput_energy_and_bot (rows : List TRow) : List MRow :=
  let s := sortRows rows
  let merged := sortByKey (fun m : TPRow × ERow => (m.1.device, m.1.ts))
    (mergeTE (calculate_throughput s) (calculate_energy_consumption s))
  let vs := merged.filterMap (fun m => m.2.batt_voltage_v)
  let vavg : Option ℚ :=
    if vs.isEmpty then none else some (vs.sum / (vs.length : ℚ))
  merged.map (mkMRow vavg)

/-! ## Full-charge blocks and capacity candidates
(`src/core/soh_cycles.py`, lines 104–124) -/

/-- The two columns the Ct-candidate stage reads from a timestamp-sorted
device series. -/
structure BRow where
  battery_level : Option ℚ
  Q : Option ℚ
  deriving DecidableEq, Repr

/-- `full_thresh = max(threshold - 1, 98)`. -/
def fullThresh (threshold : ℚ) : ℚ :=
  if threshold - 1 ≤ 98 then 98 else threshold - 1

/-- `is_full = (battery_level >= full_thresh).astype(int)`; a missing level
compares `False`. -/
def isFullList (rows : List BRow) (threshold : ℚ) : List Bool :=
  rows.map (fun r =>
    match r.battery_level with
    | some b => decide (fullThresh threshold ≤ b)
    | none => false)

/-- `block_id = (is_full.ne(is_full.shift(1))).cumsum()`: the running count
of changes of the flag (the first row always counts as a change, since the
shifted value is missing there). -/
def blockIds (prev : Option Bool) (c : ℕ) : List Bool → List ℕ
  | [] => []
  | b :: bs =>
    (if prev = some b then c else c + 1) ::
      blockIds (some b) (if prev = some b then c else c + 1) bs

/-- The `(previous flag, running change count)` state after consuming a flag
list (used to reason about `blockIds` over concatenations). -/
def biState (prev : Option Bool) (c : ℕ) : List Bool → Option Bool × ℕ
  | [] => (prev, c)
  | b :: bs => biState (some b) (if prev = some b then c else c + 1) bs

/-- `full_block_id = np.where(is_full == 1, block_id, nan)`. -/
def fullBlockIds (rows : List BRow) (threshold : ℚ) : List (Option ℕ) :=
  List.zipWith (fun f i => if f then some i else none)
    (isFullList rows threshold) (blockIds none 0 (isFullList rows threshold))

/-- `grp = df.dropna(subset=["full_block_id", "Q_mAh"])`, keeping for each
surviving row its position, its block id and its charge value. -/
def grpRows (rows : List BRow) (threshold : ℚ) : List (ℕ × ℕ × ℚ) :=
  (List.zip (List.range rows.length)
      (List.zip (fullBlockIds rows threshold) (rows.map (fun r => r.Q)))).filterMap
    (fun t => t.2.1.bind (fun b => t.2.2.map (fun q => (t.1, b, q))))

/-- Collapse equal consecutive block ids: the keys the `groupby` iterates
over (block ids are produced in nondecreasing order of position). -/
def dedupConsec : List ℕ → List ℕ
  | [] => []
  | [x] => [x]
  | x :: y :: xs =>
    if x = y then dedupConsec (y :: xs) else x :: dedupConsec (y :: xs)

/-- `Series.idxmax` on indexed values: the position of the first occurrence
of the maximum. -/
def idxmaxGo (bi : ℕ) (bv : ℚ) : List (ℕ × ℚ) → ℕ
  | [] => bi
  | p :: rest => if bv < p.2 then idxmaxGo p.1 p.2 rest else idxmaxGo bi bv rest

/-- `q.idxmax()` (missing on an empty series). -/
def idxmaxBy (l : List (ℕ × ℚ)) : Option ℕ :=
  match l with
  | [] => none
  | p :: rest => some (idxmaxGo p.1 p.2 rest)

/-- The per-block loop of lines 113–121: for each block id in order,
`ct = np.nanpercentile(q, 95)` is written at `q.idxmax()`; empty blocks are
skipped.  Starts from an all-missing `Ct_mAh` column. -/
def ctCandidates (rows : List BRow) (threshold : ℚ) : List (Option ℚ) :=
  (dedupConsec ((grpRows rows threshold).map (fun t => t.2.1))).foldl
    (fun acc b =>
      let q := ((grpRows rows threshold).filter (fun t => t.2.1 == b)).map
        (fun t => (t.1, t.2.2))
      match q with
      | [] => acc
      | p :: rest =>
        acc.set (idxmaxGo p.1 p.2 rest)
          (some (interpPercentile (sortQ (q.map (fun v => v.2))) (95 / 100))))
    (List.replicate rows.length none)

/-- Maximum of a nonempty list, with an explicit fold. -/
def foldMaxQ (x : ℚ) : List ℚ → ℚ
  | [] => x
  | y :: ys => foldMaxQ (if x < y then y else x) ys

/-- `Series.rolling(window=w, min_periods=minp).max()` (trailing window). -/
def rollingMaxW (Q : List (Option ℚ)) (w minp : ℕ) : List (Option ℚ) :=
  (List.range Q.length).map (fun i =>
    match ((Q.take (i + 1)).drop (i + 1 - w)).filterMap id with
    | [] => none
    | x :: xs =>
      if minp ≤ (x :: xs).length then some (foldMaxQ x xs) else none)

/-- Lines 104–124: the candidate assignment, with the fallback
`Ct_mAh = Q_mAh.rolling(window=6, min_periods=3).max()` when no candidate
was produced. -/
def ctColumn (rows : List BRow) (threshold : ℚ) : List (Option ℚ) :=
  if (ctCandidates rows threshold).all (fun o => o.isNone) then
    rollingMaxW (rows.map (fun r => r.Q)) 6 3
  else ctCandidates rows threshold

/-! ## The full `calculate_soh_cycles` with its exception wrapper -/

/-- Forward fill (`Series.ffill`): leading missing values stay missing. -/
def ffillGo (last : Option ℚ) : List (Option ℚ) → List (Option ℚ)
  | [] => []
  | x :: xs =>
    match x with
    | some v => some v :: ffillGo (some v) xs
    | none => last :: ffillGo last xs

/-- `df["Ct_mAh"].ffill()`. -/
def ffill (l : List (Option ℚ)) : List (Option ℚ) := ffillGo none l

/-- NaN-skipping cumulative sum (`Series.cumsum`): missing entries stay
missing and do not contaminate the running total. -/
def cumsumOptGo (acc : ℚ) : List (Option ℚ) → List (Option ℚ)
  | [] => []
  | x :: xs =>
    match x with
    | none => none :: cumsumOptGo acc xs
    | some v => some (acc + v) :: cumsumOptGo (acc + v) xs

def cumsumOpt (l : List (Option ℚ)) : List (Option ℚ) := cumsumOptGo 0 l

/-- Minimum of a nonempty list, with an explicit fold. -/
def foldMinQ (x : ℚ) : List ℚ → ℚ
  | [] => x
  | y :: ys => foldMinQ (if y < x then y else x) ys

/-- `Series.min()` (NaN-skipping; missing when no valid value exists). -/
def minOptQ (l : List (Option ℚ)) : Option ℚ :=
  match l.filterMap id with
  | [] => none
  | x :: xs => some (foldMinQ x xs)

/-- Lines 56–59: per-sample `delta_t_s = diff(created_at)` with the first
value filled with 0 and negative or `> 3600` gaps reset to 0. -/
def deltaTsClamped (ts : List ℚ) : List ℚ :=
  ((diffOpt (ts.map some)).map (fun o => o.getD 0)).map
    (fun d => if d < 0 then 0 else if 3600 < d then 0 else d)

/-- The columns of one device's frame that `calculate_soh_cycles` reads.
A `has…` flag models the presence of the column (access to an absent column
raises a `KeyError` in pandas); the value lists model the column contents.
`cNomSpec` is `capacity_map.get(model)`. -/
structure SohInput where
  ts : List ℚ
  hasChargeCounterUah : Bool
  chargeCounterUah : List (Option ℚ)
  hasChargeCounter : Bool
  chargeCounter : List (Option ℚ)
  hasCurrentAvg : Bool
  currentAvg : List (Option ℚ)
  hasBatteryLevel : Bool
  batteryLevel : List (Option ℚ)
  cNomSpec : Option ℚ
  deriving Repr

/-- The derived columns returned by `calculate_soh_cycles`. -/
structure SohFrame where
  Q_mAh : List (Option ℚ)
  Ct_mAh : List (Option ℚ)
  SoH : List (Option ℚ)
  SoH_smooth : List (Option ℚ)
  SoH_pct : List (Option ℚ)
  EFC : List (Option ℚ)
  deriving Repr

/-- `pd.DataFrame()` — the value returned by the `except` handler. -/
def emptySohFrame : SohFrame := ⟨[], [], [], [], [], []⟩

/-- The fallback frame of lines 91–102 (no usable charge data): all derived
columns are missing for every sample. -/
def fallbackSohFrame (n : ℕ) : SohFrame :=
  ⟨List.replicate n none, List.replicate n none, List.replicate n none,
   List.replicate n none, List.replicate n none, List.replicate n none⟩

/-- Sign correction of lines 81–83: if the median of the valid filtered
charge values is negative, the whole series is inverted; an undefined median
(all missing) compares `False`. -/
def signCorrect (Q : List (Option ℚ)) : List (Option ℚ) :=
  match medianQ (Q.filterMap id) with
  | some m => if m < 0 then Q.map (Option.map (fun x => -x)) else Q
  | none => Q

/-- `C0_ref` from data + spec (lines 132–148): the 95th percentile of the
valid `Ct` values at most their own 99th percentile, clamped to
`[0.95, 1.05]·C_nom` when a spec capacity exists, else the data value, else
the spec value, else `default_C0`. -/
def c0Ref (ct : List (Option ℚ)) (cNom : Option ℚ) (default_C0 : ℚ) : ℚ :=
  let valid := ct.filterMap id
  let c0data : Option ℚ :=
    if valid.isEmpty then none
    else
      let hi := interpPercentile (sortQ valid) (99 / 100)
      some (interpPercentile (sortQ (valid.filter (fun v => v ≤ hi))) (95 / 100))
  match cNom, c0data with
  | some cn, some cd => clip (95 / 100 * cn) (105 / 100 * cn) cd
  | none, some cd => cd
  | some cn, none => cn
  | none, none => default_C0

/-- The body of `calculate_soh_cycles` (the `try` block), for one device's
timestamp-sorted series.  Reading the `battery_level` column when it is
absent raises a `KeyError`, modelled with `Except.error`. -/
def sohCyclesRun (inp : SohInput) (default_C0 : ℚ) (threshold : ℚ) :
    Except String SohFrame :=
  let useChargeCounter :=
    (inp.hasChargeCounterUah && inp.chargeCounterUah.any (fun o => o.isSome))
    || (inp.hasChargeCounter && inp.chargeCounter.any (fun o => o.isSome))
  let useCurrentAvg :=
    inp.hasCurrentAvg && inp.currentAvg.any (fun o => o.isSome)
  if useChargeCounter || useCurrentAvg then
    let Q : List (Option ℚ) :=
      if useChargeCounter then
        let raw :=
          if inp.hasChargeCounterUah then inp.chargeCounterUah
          else inp.chargeCounter
        signCorrect (hampel (raw.map (Option.map (fun x => x / 1000))) 7 5)
      else
        let dts := deltaTsClamped inp.ts
        let dQAh := List.zipWith
          (fun c t => c.map (fun cv => cv / 1000000 * t / 3600))
          inp.currentAvg dts
        let QAh0 := cumsumOpt dQAh
        let QAh :=
          match minOptQ QAh0 with
          | some mn => QAh0.map (Option.map (fun x => x - mn))
          | none => QAh0
        QAh.map (Option.map (fun x => x * 1000))
    if inp.hasBatteryLevel then
      let rows := List.zipWith (fun b q => BRow.mk b q) inp.batteryLevel Q
      let ct0 := ctColumn rows threshold
      let ct1 :=
        match inp.cNomSpec with
        | some cn => ct0.map (Option.map (clip (7 / 10 * cn) (23 / 20 * cn)))
        | none => ct0
      let ct := ffill ct1
      let C0 := c0Ref ct inp.cNomSpec default_C0
      Except.ok
        { Q_mAh := Q
          Ct_mAh := ct
          SoH := sohColumn ct C0
          SoH_smooth := rollingMedianC (sohColumn ct C0) 1 1
          SoH_pct := (sohColumn ct C0).map (Option.map (fun x => x * 100))
          EFC := (efcColumn Q C0).map some }
    else Except.error "KeyError: battery_level"
  else Except.ok (fallbackSohFrame inp.ts.length)

/-- `calculate_soh_cycles` with its catch-all `except` handler: any internal
exception yields `pd.DataFrame()` (the empty frame). -/
def calculate_soh_cycles (inp : SohInput) (default_C0 : ℚ) (threshold : ℚ) :
    SohFrame :=
  match sohCyclesRun inp default_C0 threshold with
  | Except.ok f => f
  | Except.error _ => emptySohFrame

/-! ## Window builder (`src/core/feature_engineering.py`, `build_windows`) -/

/-- The columns `build_windows` reads; `has…` flags model column presence
(the `in df_feat.columns` tests). -/
structure FeatFrame where
  created_at : List ℚ
  feats : List (List ℚ)
  hasSohSmooth : Bool
  sohSmooth : List (Option ℚ)
  hasSohPct : Bool
  sohPct : List (Option ℚ)
  hasEFC : Bool
  efc : List (Option ℚ)
  deriving Repr

/-- The sliding-window loop of `build_windows`: for `i` in
`[win_size, n)`, the window is rows `[i − win_size, i)` of the feature
matrix, paired with the timestamp, SoH-true and EFC values at index `i`
(EFC missing when the column is absent). -/
def buildWindowsArrays (f : FeatFrame) (win_size : ℕ)
    (sohTrue : List (Option ℚ)) :
    List (List (List ℚ)) × List ℚ × List (Option ℚ) × List (Option ℚ) :=
  let idxs := (List.range f.feats.length).filter (fun i => win_size ≤ i)
  (idxs.map (fun i => (f.feats.drop (i - win_size)).take win_size),
   idxs.map (fun i => f.created_at.getD i 0),
   idxs.map (fun i => sohTrue.getD i none),
   idxs.map (fun i => if f.hasEFC then f.efc.getD i none else none))

/-- The `try` body of `build_windows`: choose the SoH-true series (raising
when neither `SoH_smooth` nor `SoH_pct` exists), then slide a window of
`win_size` rows, collecting the window, the target timestamp, the SoH-true
value and the EFC value at each target index. -/
def buildWindowsRun (f : FeatFrame) (win_size : ℕ) :
    Except String
      (List (List (List ℚ)) × List ℚ × List (Option ℚ) × List (Option ℚ)) :=
  if f.hasSohSmooth then
    Except.ok (buildWindowsArrays f win_size
      (f.sohSmooth.map (Option.map (fun x => x * 100))))
  else if f.hasSohPct then
    Except.ok (buildWindowsArrays f win_size f.sohPct)
  else Except.error "No valid SoH true column found."

/-- `build_windows`: the catch-all `except` prints and falls through,
returning `None` — modelled as `Option.none`. -/
def build_windows (f : FeatFrame) (win_size : ℕ) :
    Option
      (List (List (List ℚ)) × List ℚ × List (Option ℚ) × List (Option ℚ)) :=
  match buildWindowsRun f win_size with
  | Except.ok v => some v
  | Except.error _ => none

end Battery

namespace Battery

/-! ## Theorems -/

/-- C7: for every `soh_pred`, with `k_global > 0` and `hours_per_cycle ≥ 0`,
`estimate_rul_from_soh` returns `rul_cycles = max ((soh_pred − soh_eol)/k_global) 0`;
`soh_pred ≤ soh_eol` gives `rul_cycles = 0` exactly, and none of the four
returned quantities is negative. -/
theorem rul_nonneg_and_eol_zero (soh_pred soh_eol k_global hours_per_cycle : ℚ)
    (hk : 0 < k_global) (hh : 0 ≤ hours_per_cycle) :
    (estimate_rul_from_soh soh_pred soh_eol k_global hours_per_cycle).rul_cycles
        = max ((soh_pred - soh_eol) / k_global) 0 ∧
    (soh_pred ≤ soh_eol →
      (estimate_rul_from_soh soh_pred soh_eol k_global hours_per_cycle).rul_cycles = 0) ∧
    0 ≤ (estimate_rul_from_soh soh_pred soh_eol k_global hours_per_cycle).rul_cycles ∧
    0 ≤ (estimate_rul_from_soh soh_pred soh_eol k_global hours_per_cycle).rul_hours ∧
    0 ≤ (estimate_rul_from_soh soh_pred soh_eol k_global hours_per_cycle).rul_months ∧
    0 ≤ (estimate_rul_from_soh soh_pred soh_eol k_global hours_per_cycle).rul_years := by
  have e : estimate_rul_from_soh soh_pred soh_eol k_global hours_per_cycle =
      { rul_cycles := max ((soh_pred - soh_eol) / k_global) 0
        rul_hours := max ((soh_pred - soh_eol) / k_global) 0 * hours_per_cycle
        rul_months := max ((soh_pred - soh_eol) / k_global) 0 * hours_per_cycle / 24 / 30
        rul_years := max ((soh_pred - soh_eol) / k_global) 0 * hours_per_cycle / 24 / 365 } :=
    rfl
  rw [e]
  have hcyc : (0:ℚ) ≤ max ((soh_pred - soh_eol) / k_global) 0 := le_max_right _ _
  have hhours : (0:ℚ) ≤ max ((soh_pred - soh_eol) / k_global) 0 * hours_per_cycle :=
    mul_nonneg hcyc hh
  refine ⟨rfl, ?_, hcyc, hhours, ?_, ?_⟩
  · intro hle
    have hnum : soh_pred - soh_eol ≤ 0 := by linarith
    have hdiv : (soh_pred - soh_eol) / k_global ≤ 0 :=
      div_nonpos_of_nonpos_of_nonneg hnum (le_of_lt hk)
    simpa using max_eq_right hdiv
  · exact div_nonneg (div_nonneg hhours (by norm_num)) (by norm_num)
  · exact div_nonneg (div_nonneg hhours (by norm_num)) (by norm_num)

/-- Witness for C7 at `soh_pred = 70`, `soh_eol = 80`, `k_global = 1/100`,
`hours_per_cycle = 10`. -/
theorem rul_nonneg_and_eol_zero_witness :
    (estimate_rul_from_soh 70 80 (1/100) 10).rul_cycles
        = max ((70 - 80 : ℚ) / (1/100)) 0 ∧
    ((70:ℚ) ≤ 80 → (estimate_rul_from_soh 70 80 (1/100) 10).rul_cycles = 0) ∧
    0 ≤ (estimate_rul_from_soh 70 80 (1/100) 10).rul_cycles ∧
    0 ≤ (estimate_rul_from_soh 70 80 (1/100) 10).rul_hours ∧
    0 ≤ (estimate_rul_from_soh 70 80 (1/100) 10).rul_months ∧
    0 ≤ (estimate_rul_from_soh 70 80 (1/100) 10).rul_years :=
  rul_nonneg_and_eol_zero 70 80 (1/100) 10 (by norm_num) (by norm_num)

/-- C8: per-device z-score on a degenerate column — every entry of the device
column is missing or equal to one constant `c`, which is exactly the case of
population standard deviation 0 (single distinct value) or undefined
(all values missing) — produces exactly `0.0` in every row, never a missing
value, for any embedding `sq` of the square root. -/
theorem zscore_degenerate_column_is_zero (sq : ℚ → ℚ) (col : List (Option ℚ))
    (c : ℚ) (hconst : ∀ x ∈ col, x = none ∨ x = some c) :
    zColumn sq col = List.replicate col.length (some 0) := by
  have hvalid : ∀ v ∈ col.filterMap id, v = c := by
    intro v hv
    rcases List.mem_filterMap.mp hv with ⟨x, hx, hxv⟩
    rcases hconst x hx with h | h
    · rw [h] at hxv
      cases hxv
    · rw [h] at hxv
      exact (Option.some.inj hxv).symm
  by_cases hlen : (col.filterMap id).length = 0
  · simp [zColumn, hlen]
  · have hlenQ : ((col.filterMap id).length : ℚ) ≠ 0 := by
      exact_mod_cast hlen
    have hrep : col.filterMap id =
        List.replicate (col.filterMap id).length c :=
      List.eq_replicate_iff.mpr ⟨rfl, hvalid⟩
    have hsum : (col.filterMap id).sum = ((col.filterMap id).length : ℚ) * c := by
      conv_lhs => rw [hrep]
      simp [List.sum_replicate, nsmul_eq_mul]
    have hmu : popMean (col.filterMap id) = c := by
      rw [popMean, hsum, mul_comm, mul_div_assoc, div_self hlenQ, mul_one]
    have hvar : popVar (col.filterMap id) = 0 := by
      rw [popVar]
      have hz : ((col.filterMap id).map
          (fun x => (x - popMean (col.filterMap id)) ^ 2)).sum = 0 := by
        apply List.sum_eq_zero
        intro y hy
        rcases List.mem_map.mp hy with ⟨v, hv, hvy⟩
        rw [hvalid v hv, hmu] at hvy
        simpa using hvy.symm
      rw [hz, zero_div]
    simp [zColumn, hlen, hvar]

/-- Witness for C8 on the constant column `[5,5,5,5,5]` with `sq = id`. -/
theorem zscore_degenerate_column_is_zero_witness :
    zColumn (fun q => q) [some 5, some 5, some 5, some 5, some 5] =
      List.replicate ([some 5, some 5, some 5, some 5, some (5:ℚ)]).length (some 0) :=
  zscore_degenerate_column_is_zero (fun q => q) _ 5 (by decide)

/-- C3: every defined (non-missing) entry of the SoH column produced by
`calculate_soh_cycles` — `clip(Ct/C0_ref, 0.0, 1.2)` — lies in `[0, 1.2]`,
for any Ct column and any nonzero reference capacity. -/
theorem soh_clipped_in_range (ct : List (Option ℚ)) (C0_ref : ℚ)
    (_hC0 : C0_ref ≠ 0) (i : ℕ) (v : ℚ)
    (hv : (sohColumn ct C0_ref).getD i none = some v) :
    0 ≤ v ∧ v ≤ 12 / 10 := by
  have hmem : some v ∈ sohColumn ct C0_ref := by
    by_cases hi : i < (sohColumn ct C0_ref).length
    · rw [List.getD_eq_getElem _ _ hi] at hv
      rw [← hv]
      exact List.getElem_mem _
    · rw [List.getD_eq_default _ _ (le_of_not_lt hi)] at hv
      cases hv
  rcases List.mem_map.mp hmem with ⟨o, _, ho⟩
  rcases o with _ | c
  · cases ho
  · have hvc : clip 0 (12 / 10) (c / C0_ref) = v := Option.some.inj ho
    rw [← hvc]
    constructor
    · exact le_min (le_max_right _ _) (by norm_num)
    · exact min_le_right _ _

/-- Witness for C3: `Ct = [some 6000]`, `C0_ref = 5000`, sample 0 has value
`6/5` (clipped at `1.2`), which lies in `[0, 1.2]`. -/
theorem soh_clipped_in_range_witness :
    0 ≤ (6/5 : ℚ) ∧ (6/5 : ℚ) ≤ 12 / 10 :=
  soh_clipped_in_range [some 6000] 5000 (by norm_num) 0 (6/5) (by
    show (sohColumn [some 6000] 5000).getD 0 none = some (6/5)
    norm_num [sohColumn, clip, min_def, max_def])

/-! ### Helper lemmas for the Hampel filter -/

theorem zipWith_mask_false (bs : List Bool) (s : List (Option ℚ))
    (hb : ∀ b ∈ bs, b = false) (hlen : s.length ≤ bs.length) :
    List.zipWith (fun o x => if o then none else x) bs s = s := by
  induction bs generalizing s with
  | nil =>
    cases s with
    | nil => rfl
    | cons x xs => simp at hlen
  | cons b bs ih =>
    cases s with
    | nil => rfl
    | cons x xs =>
      have hb0 : b = false := hb b (by simp)
      subst hb0
      simp only [List.zipWith, if_neg Bool.false_ne_true]
      refine congrArg (x :: ·) (ih xs ?_ ?_)
      · intro c hc
        exact hb c (by simp [hc])
      · simpa using hlen

theorem zipWith_left_none {β γ : Type} (f : Option ℚ → β → γ) (P : γ → Prop)
    (hf : ∀ b, P (f none b)) :
    ∀ (l₁ : List (Option ℚ)) (l₂ : List β),
      (∀ a ∈ l₁, a = none) → ∀ c ∈ List.zipWith f l₁ l₂, P c := by
  intro l₁
  induction l₁ with
  | nil => intro l₂ _ c hc; simp at hc
  | cons a as ih =>
    intro l₂ h c hc
    cases l₂ with
    | nil => simp at hc
    | cons b bs =>
      rcases List.mem_cons.mp hc with h1 | h2
      · have ha : a = none := h a (by simp)
        subst ha
        rw [h1]
        exact hf b
      · exact ih bs (fun y hy => h y (by simp [hy])) c h2

theorem length_rollingMedianC (s : List (Option ℚ)) (k minp : ℕ) :
    (rollingMedianC s k minp).length = s.length := by
  simp [rollingMedianC]

theorem length_hampelOutlier (s : List (Option ℚ)) (k : ℕ) (nsigma : ℚ) :
    (hampelOutlier s k nsigma).length = s.length := by
  simp [hampelOutlier, seriesSubAbs, rollingMedianC]

/-- C4: idempotence of the Hampel filter on clean data — if no point of the
series satisfies `|x − rolling_median| > nsigma·1.4826·rolling_MAD` (the
outlier mask is everywhere false) the output equals the input exactly; and on
an all-missing (all-NaN) input the filter returns the input unchanged. -/
theorem hampel_clean_identity_and_allnan (s : List (Option ℚ)) (k : ℕ)
    (nsigma : ℚ) :
    ((∀ b ∈ hampelOutlier s k nsigma, b = false) → hampel s k nsigma = s) ∧
    ((∀ x ∈ s, x = none) → hampel s k nsigma = s) := by
  constructor
  · intro h
    exact zipWith_mask_false _ _ h (le_of_eq (length_hampelOutlier s k nsigma).symm)
  · intro h
    have hdev : ∀ a ∈ seriesSubAbs s (rollingMedianC s k 3), a = none := by
      refine zipWith_left_none _ (fun o => o = none) (fun _ => rfl) s _ h
    have hmask : ∀ b ∈ hampelOutlier s k nsigma, b = false := by
      intro b hb
      simp only [hampelOutlier] at hb
      refine zipWith_left_none
        (fun d t =>
          match d, t with
          | some dv, some tv => decide (tv < dv)
          | _, _ => false)
        (fun c => c = false) (fun t => ?_) _ _ hdev b hb
      cases t <;> rfl
    exact zipWith_mask_false _ _ hmask
      (le_of_eq (length_hampelOutlier s k nsigma).symm)

/-- Witness for C4: a constant clean 9-point series (mask all false) and an
all-missing 3-point series, with the source defaults `k = 7`,
`nsigma = 5`. -/
theorem hampel_clean_identity_and_allnan_witness :
    hampel [some 10, some 10, some 10, some 10, some 10, some 10, some 10,
      some 10, some 10] 7 5 =
      [some 10, some 10, some 10, some 10, some 10, some 10, some 10,
        some 10, some (10:ℚ)] ∧
    hampel [none, none, none] 7 5 = [none, none, (none : Option ℚ)] :=
  ⟨(hampel_clean_identity_and_allnan _ 7 5).1
      (by with_unfolding_all decide),
   (hampel_clean_identity_and_allnan _ 7 5).2 (by decide)⟩

/-! ### Helper lemmas for percentiles and the EFC accumulator -/

theorem getD_nonneg (s : List ℚ) (d : ℚ) (hs : ∀ x ∈ s, 0 ≤ x) (hd : 0 ≤ d)
    (i : ℕ) : 0 ≤ s.getD i d := by
  by_cases hi : i < s.length
  · rw [List.getD_eq_getElem s d hi]
    exact hs _ (List.getElem_mem _)
  · rw [List.getD_eq_default s d (le_of_not_lt hi)]
    exact hd

theorem mem_insertQ {x y : ℚ} {l : List ℚ} :
    y ∈ insertQ x l ↔ y = x ∨ y ∈ l := by
  induction l with
  | nil => simp [insertQ]
  | cons z zs ih =>
    by_cases h : x ≤ z
    · simp [insertQ, h]
    · simp [insertQ, h, ih]
      tauto

theorem mem_sortQ {y : ℚ} {l : List ℚ} : y ∈ sortQ l ↔ y ∈ l := by
  induction l with
  | nil => simp [sortQ]
  | cons x xs ih => simp [sortQ, mem_insertQ, ih]

theorem length_insertQ (x : ℚ) (l : List ℚ) :
    (insertQ x l).length = l.length + 1 := by
  induction l with
  | nil => rfl
  | cons z zs ih =>
    by_cases h : x ≤ z
    · simp [insertQ, h]
    · simp [insertQ, h, ih]

theorem length_sortQ (l : List ℚ) : (sortQ l).length = l.length := by
  induction l with
  | nil => rfl
  | cons x xs ih => simp [sortQ, length_insertQ, ih]

theorem interpPercentile_nonneg (s : List ℚ) (p : ℚ) (hne : s ≠ [])
    (hs : ∀ x ∈ s, 0 ≤ x) (hp0 : 0 ≤ p) (hp1 : p ≤ 1) :
    0 ≤ interpPercentile s p := by
  simp only [interpPercentile]
  set pos := p * ((s.length : ℚ) - 1) with hposdef
  set lo := (Int.floor pos).toNat with hlodef
  set a := s.getD lo 0 with hadef
  set b := s.getD (lo + 1) (s.getD lo 0) with hbdef
  have hm : 0 < s.length := List.length_pos.mpr hne
  have hm1 : (1 : ℚ) ≤ (s.length : ℚ) := by exact_mod_cast hm
  have hpos0 : 0 ≤ pos := by
    rw [hposdef]
    exact mul_nonneg hp0 (by linarith)
  have hfl : ((lo : ℚ)) = ((Int.floor pos : ℚ)) := by
    rw [hlodef]
    exact_mod_cast Int.toNat_of_nonneg (Int.floor_nonneg.mpr hpos0)
  have hfr0 : 0 ≤ pos - (lo : ℚ) := by
    rw [hfl]
    linarith [Int.floor_le pos]
  have hfr1 : pos - (lo : ℚ) ≤ 1 := by
    rw [hfl]
    have h2 := Int.lt_floor_add_one pos
    push_cast at h2
    linarith
  have ha : 0 ≤ a := by
    rw [hadef]
    exact getD_nonneg s 0 hs le_rfl lo
  have hb : 0 ≤ b := by
    rw [hbdef]
    exact getD_nonneg s a hs ha (lo + 1)
  nlinarith [mul_nonneg hfr0 hb, mul_nonneg (sub_nonneg.mpr hfr1) ha]

theorem percentileQ_nonneg (l : List ℚ) (p q : ℚ) (hl : ∀ x ∈ l, 0 ≤ x)
    (hp0 : 0 ≤ p) (hp1 : p ≤ 1) (hq : percentileQ l p = some q) : 0 ≤ q := by
  rw [percentileQ] at hq
  by_cases he : l.isEmpty
  · rw [if_pos he] at hq
    cases hq
  · rw [if_neg he] at hq
    have hlnil : l ≠ [] := by
      intro h0
      exact he (by simp [h0])
    have hne : sortQ l ≠ [] := by
      intro h0
      have := length_sortQ l
      rw [h0] at this
      exact hlnil (List.length_eq_zero.mp this.symm)
    rw [← Option.some.inj hq]
    exact interpPercentile_nonneg (sortQ l) p hne
      (fun x hx => hl x (mem_sortQ.mp hx)) hp0 hp1

theorem getD_map (f : ℚ → ℚ) (l : List ℚ) (d : ℚ) (i : ℕ)
    (hi : i < l.length) : (l.map f).getD i d = f (l.getD i d) := by
  rw [List.getD_eq_getElem _ _ (by simpa using hi),
    List.getD_eq_getElem _ _ hi, List.getElem_map]

theorem sum_take_mono_of_nonneg (l : List ℚ) (h : ∀ x ∈ l, 0 ≤ x) {i j : ℕ}
    (hij : i ≤ j) : (l.take i).sum ≤ (l.take j).sum := by
  obtain ⟨t, ht⟩ := List.take_prefix_take_left l hij
  have hts : 0 ≤ t.sum := by
    refine List.sum_nonneg (fun x hx => h x ?_)
    exact List.take_subset j l (ht ▸ List.mem_append_right _ hx)
  calc (l.take i).sum ≤ (l.take i).sum + t.sum := by linarith
    _ = (l.take j).sum := by rw [← ht, List.sum_append]

theorem length_deltaQColumn (Q : List (Option ℚ)) :
    (deltaQColumn Q).length = Q.length := by
  cases Q with
  | nil => rfl
  | cons x xs => simp [deltaQColumn, diffOpt]

theorem length_dischargeColumn (Q : List (Option ℚ)) :
    (dischargeColumn Q).length = Q.length := by
  simp [dischargeColumn, length_deltaQColumn]

theorem discharge_nonneg (Q : List (Option ℚ)) :
    ∀ x ∈ dischargeColumn Q, 0 ≤ x := by
  intro x hx
  rcases List.mem_map.mp hx with ⟨d, _, hdx⟩
  rw [← hdx]
  by_cases h : d < 0
  · rw [if_pos h]
    linarith
  · rw [if_neg h]

theorem length_cappedDischarge (Q : List (Option ℚ)) :
    (cappedDischarge Q).length = Q.length := by
  rw [cappedDischarge]
  cases hp : percentileQ (dischargeColumn Q) (99 / 100) with
  | none => simp [length_dischargeColumn]
  | some q99 => simp [length_dischargeColumn]

theorem capped_nonneg (Q : List (Option ℚ)) :
    ∀ x ∈ cappedDischarge Q, 0 ≤ x := by
  intro x hx
  rw [cappedDischarge] at hx
  cases hp : percentileQ (dischargeColumn Q) (99 / 100) with
  | none =>
    rw [hp] at hx
    exact discharge_nonneg Q x hx
  | some q99 =>
    rw [hp] at hx
    have hq99 : 0 ≤ q99 :=
      percentileQ_nonneg _ _ _ (discharge_nonneg Q) (by norm_num)
        (by norm_num) hp
    rcases List.mem_map.mp hx with ⟨d, hd, hdx⟩
    have hd0 := discharge_nonneg Q d hd
    rw [← hdx]
    by_cases h : q99 < d
    · rw [if_pos h]
      exact hq99
    · rw [if_neg h]
      exact hd0

theorem length_efcColumn (Q : List (Option ℚ)) (C0_ref : ℚ) :
    (efcColumn Q C0_ref).length = Q.length := by
  simp [efcColumn, cumsum, length_cappedDischarge]

theorem efc_getD (Q : List (Option ℚ)) (C0_ref : ℚ) (i : ℕ)
    (hi : i < (cappedDischarge Q).length) :
    (efcColumn Q C0_ref).getD i 0 =
      ((cappedDischarge Q).take (i + 1)).sum / C0_ref := by
  have hi' : i < (efcColumn Q C0_ref).length := by
    rw [length_efcColumn, ← length_cappedDischarge]
    exact hi
  rw [efcColumn] at hi' ⊢
  rw [List.getD_eq_getElem _ _ hi']
  simp [cumsum]

/-- C2 (amended): the EFC column computed by `calculate_soh_cycles` —
`cumsum(discharge)/C0_ref` with `discharge = max(−ΔQ, 0)` capped at the 99th
percentile — is non-decreasing along the per-device series **whenever the
reference capacity is positive** (guaranteed when the device model has a
spec capacity or the default is used, but not by the data-derived branch of
lines 143–144, see the counterexample), and any sample whose `delta_Q` is
≥ 0 (a charging sample) contributes zero: EFC does not move at that
sample. -/
theorem efc_monotone_and_charging_contributes_zero (Q : List (Option ℚ))
    (C0_ref : ℚ) (hC0 : 0 < C0_ref) :
    (∀ i j, i ≤ j → j < (efcColumn Q C0_ref).length →
      (efcColumn Q C0_ref).getD i 0 ≤ (efcColumn Q C0_ref).getD j 0) ∧
    (∀ i, i + 1 < (efcColumn Q C0_ref).length →
      0 ≤ (deltaQColumn Q).getD (i + 1) 0 →
      (efcColumn Q C0_ref).getD (i + 1) 0 = (efcColumn Q C0_ref).getD i 0) := by
  constructor
  · intro i j hij hj
    have hj' : j < (cappedDischarge Q).length := by
      rw [length_cappedDischarge, ← length_efcColumn Q C0_ref]
      exact hj
    have hi' : i < (cappedDischarge Q).length := lt_of_le_of_lt hij hj'
    rw [efc_getD Q C0_ref i hi', efc_getD Q C0_ref j hj']
    have hsum := sum_take_mono_of_nonneg (cappedDischarge Q) (capped_nonneg Q)
      (Nat.succ_le_succ hij)
    have := mul_le_mul_of_nonneg_right hsum
      (inv_nonneg.mpr (le_of_lt hC0))
    simpa [div_eq_mul_inv] using this
  · intro i hi1 hd
    have hi1' : i + 1 < (cappedDischarge Q).length := by
      rw [length_cappedDischarge, ← length_efcColumn Q C0_ref]
      exact hi1
    have hi1d : i + 1 < (deltaQColumn Q).length := by
      rw [length_deltaQColumn, ← length_cappedDischarge]
      exact hi1'
    have hdis : (dischargeColumn Q).getD (i + 1) 0 = 0 := by
      rw [dischargeColumn, getD_map _ _ _ _ hi1d, if_neg (not_lt.mpr hd)]
    have hi1dis : i + 1 < (dischargeColumn Q).length := by
      rw [length_dischargeColumn, ← length_deltaQColumn]
      exact hi1d
    have hcap0 : (cappedDischarge Q).getD (i + 1) 0 = 0 := by
      rw [cappedDischarge]
      cases hp : percentileQ (dischargeColumn Q) (99 / 100) with
      | none => simpa using hdis
      | some q99 =>
        have hq99 : 0 ≤ q99 :=
          percentileQ_nonneg _ _ _ (discharge_nonneg Q) (by norm_num)
            (by norm_num) hp
        simp only [Option.elim]
        rw [getD_map _ _ _ _ hi1dis, hdis, if_neg (not_lt.mpr hq99)]
    rw [efc_getD Q C0_ref (i + 1) hi1',
      efc_getD Q C0_ref i (Nat.lt_of_succ_lt hi1')]
    have hstep := List.sum_take_succ (cappedDischarge Q) (i + 1) hi1'
    rw [List.getD_eq_getElem (cappedDischarge Q) 0 hi1'] at hcap0
    rw [hstep, hcap0, add_zero]

/-- Witness for C2 on `Q = [100, 90, 95]`, `C0_ref = 50`: EFC is
non-decreasing from sample 0 to sample 2, and the charging sample 2
(`delta_Q = 5 ≥ 0`) leaves EFC unchanged. -/
theorem efc_monotone_and_charging_contributes_zero_witness :
    (efcColumn [some 100, some 90, some 95] 50).getD 0 0 ≤
      (efcColumn [some 100, some 90, some 95] 50).getD 2 0 ∧
    (efcColumn [some 100, some 90, some 95] 50).getD 2 0 =
      (efcColumn [some 100, some 90, some 95] 50).getD 1 0 :=
  ⟨(efc_monotone_and_charging_contributes_zero [some 100, some 90, some 95]
      50 (by norm_num)).1 0 2 (by norm_num) (by with_unfolding_all decide),
   (efc_monotone_and_charging_contributes_zero [some 100, some 90, some 95]
      50 (by norm_num)).2 1 (by with_unfolding_all decide)
      (by with_unfolding_all decide)⟩

attribute [local semireducible] Rat.add Rat.sub Rat.mul Rat.inv in
set_option maxRecDepth 20000 in
/-- C2 (counterexample): a device absent from the capacity map takes the
data-derived branch `C0_ref = float(C0_ref_data)` (lines 143–144), which can
be negative.  For charge-counter samples `[-20, -10, 5, 6, 7, 3]` with
battery levels `[100, 100, 50, 50, 50, 50]`, the Hampel filter removes only
the first point, the sign correction does not fire (median `5/1000 ≥ 0`),
the single full-charge block's only valid charge `-10/1000` becomes `Ct`
everywhere, so `C0_ref = -1/100 < 0` — and the EFC column of
`calculate_soh_cycles` *decreases* at the final discharging sample, refuting
the unconditional claim. -/
theorem efc_decreasing_for_unknown_device :
    (calculate_soh_cycles
      ⟨[0, 10, 20, 30, 40, 50], true,
       [some (-20), some (-10), some 5, some 6, some 7, some 3],
       false, [], false, [],
       true, [some 100, some 100, some 50, some 50, some 50, some 50],
       none⟩ 5000 100).EFC =
      [some 0, some 0, some 0, some 0, some 0, some (-19/50)] ∧
    (-19/50 : ℚ) < 0 := by
  decide

/-- C5: evaluation of `calculate_throughput` at the failing input — one
device with two samples at the same timestamp.  The surviving output row has
`delta_t = 0` (not `> 0`) and a non-finite (missing) throughput: the
`dropna` at line 59 removes only undefined deltas, contradicting the
adjacent comment "Remove rows with non-positive delta_t or NaN values". -/
theorem throughput_keeps_nonpositive_delta_t :
    (calculate_throughput
      [{ device := 0, ts := 0, tx := some 1000, rx := some 500,
         voltage_mv := some 4000, current_ua := some 100000, temp := some 30 },
       { device := 0, ts := 0, tx := some 3000, rx := some 1500,
         voltage_mv := some 4000, current_ua := some 100000,
         temp := some 30 }]).map
      (fun r => (r.delta_t, r.total_bps)) = [(0, none)] := by
  with_unfolding_all decide

/-! ### Stable sort / per-device grouping lemmas -/

theorem keyLE_total (a b : ℕ × ℚ) (h : ¬ keyLE a b = true) :
    keyLE b a = true := by
  simp only [keyLE, Bool.or_eq_true, Bool.and_eq_true, beq_iff_eq,
    decide_eq_true_eq] at h ⊢
  push_neg at h
  rcases Nat.lt_trichotomy a.1 b.1 with hlt | heq | hgt
  · exact absurd hlt (not_lt.mpr h.1)
  · exact Or.inr ⟨heq.symm, le_of_lt (h.2 heq)⟩
  · exact Or.inl hgt

theorem keyLE_trans (a b c : ℕ × ℚ) (h1 : keyLE a b = true)
    (h2 : keyLE b c = true) : keyLE a c = true := by
  simp only [keyLE, Bool.or_eq_true, Bool.and_eq_true, beq_iff_eq,
    decide_eq_true_eq] at h1 h2 ⊢
  rcases h1 with h1 | ⟨h1e, h1le⟩ <;> rcases h2 with h2 | ⟨h2e, h2le⟩
  · exact Or.inl (lt_trans h1 h2)
  · exact Or.inl (h2e ▸ h1)
  · exact Or.inl (h1e ▸ h2)
  · exact Or.inr ⟨h1e.trans h2e, le_trans h1le h2le⟩

theorem mem_insertByKey {α : Type} (key : α → ℕ × ℚ) (x y : α)
    (l : List α) : y ∈ insertByKey key x l ↔ y = x ∨ y ∈ l := by
  induction l with
  | nil => simp [insertByKey]
  | cons z zs ih =>
    by_cases h : keyLE (key x) (key z) = true
    · simp [insertByKey, h]
    · simp [insertByKey, h, ih]
      tauto

theorem insertByKey_all_le {α : Type} (key : α → ℕ × ℚ) (x : α)
    (l : List α) (h : ∀ z ∈ l, keyLE (key x) (key z) = true) :
    insertByKey key x l = x :: l := by
  cases l with
  | nil => rfl
  | cons z zs =>
    simp only [insertByKey]
    rw [if_pos (h z (by simp))]

theorem pairwise_insertByKey {α : Type} (key : α → ℕ × ℚ) (x : α)
    (l : List α)
    (hl : List.Pairwise (fun u v => keyLE (key u) (key v) = true) l) :
    List.Pairwise (fun u v => keyLE (key u) (key v) = true)
      (insertByKey key x l) := by
  induction l with
  | nil => simp [insertByKey]
  | cons z zs ih =>
    rcases List.pairwise_cons.mp hl with ⟨hz, hzs⟩
    by_cases h : keyLE (key x) (key z) = true
    · simp only [insertByKey, if_pos h]
      refine List.pairwise_cons.mpr ⟨?_, hl⟩
      intro y hy
      rcases List.mem_cons.mp hy with rfl | hy2
      · exact h
      · exact keyLE_trans _ _ _ h (hz y hy2)
    · simp only [insertByKey, if_neg h]
      refine List.pairwise_cons.mpr ⟨?_, ih hzs⟩
      intro y hy
      rcases (mem_insertByKey key x y zs).mp hy with rfl | hy2
      · exact keyLE_total _ _ h
      · exact hz y hy2

theorem pairwise_sortByKey {α : Type} (key : α → ℕ × ℚ) (l : List α) :
    List.Pairwise (fun u v => keyLE (key u) (key v) = true)
      (sortByKey key l) := by
  induction l with
  | nil => simp [sortByKey]
  | cons x xs ih =>
    simp only [sortByKey]
    exact pairwise_insertByKey key x _ ih

theorem filter_insertByKey {α : Type} (key : α → ℕ × ℚ) (p : α → Bool)
    (x : α) (l : List α)
    (hl : List.Pairwise (fun u v => keyLE (key u) (key v) = true) l) :
    (insertByKey key x l).filter p =
      if p x then insertByKey key x (l.filter p) else l.filter p := by
  induction l with
  | nil =>
    cases hpx : p x <;> simp [insertByKey, List.filter, hpx]
  | cons z zs ih =>
    rcases List.pairwise_cons.mp hl with ⟨hz, hzs⟩
    by_cases hxz : keyLE (key x) (key z) = true
    · simp only [insertByKey, if_pos hxz]
      cases hpx : p x with
      | true =>
        have hall : ∀ w ∈ (z :: zs).filter p, keyLE (key x) (key w) = true := by
          intro w hw
          have hw2 := List.mem_of_mem_filter hw
          rcases List.mem_cons.mp hw2 with rfl | hw3
          · exact hxz
          · exact keyLE_trans _ _ _ hxz (hz w hw3)
        rw [if_pos rfl, insertByKey_all_le key x _ hall, List.filter_cons,
          if_pos hpx]
      | false =>
        rw [if_neg (by simp [hpx]), List.filter_cons, if_neg (by simp [hpx])]
    · simp only [insertByKey, if_neg hxz]
      rw [List.filter_cons, ih hzs, List.filter_cons]
      cases hpx : p x <;> cases hpz : p z <;>
        simp [insertByKey, hxz, hpx, hpz]

theorem filter_sortByKey {α : Type} (key : α → ℕ × ℚ) (p : α → Bool)
    (l : List α) :
    (sortByKey key l).filter p = sortByKey key (l.filter p) := by
  induction l with
  | nil => rfl
  | cons x xs ih =>
    simp only [sortByKey]
    rw [filter_insertByKey key p x _ (pairwise_sortByKey key xs), ih,
      List.filter_cons]
    cases hpx : p x with
    | true => rw [if_pos rfl, if_pos rfl, sortByKey]
    | false => rw [if_neg (by simp), if_neg (by simp)]

theorem filter_addDiffs (d : ℕ) :
    ∀ (l : List TRow) (st₁ st₂ : ℕ → Option TRow), st₁ d = st₂ d →
      (addDiffs st₁ l).filter (fun r => r.row.device == d) =
        addDiffs st₂ (l.filter (fun r => r.device == d)) := by
  intro l
  induction l with
  | nil => intro st₁ st₂ _; rfl
  | cons r rs ih =>
    intro st₁ st₂ h
    simp only [addDiffs, List.filter_cons]
    by_cases hr : r.device = d
    · have hst : st₁ r.device = st₂ r.device := by rw [hr]; exact h
      rw [if_pos (by simp [hr]), if_pos (by simp [hr])]
      simp only [addDiffs, hst]
      refine congrArg _ (ih _ _ ?_)
      by_cases hd : d = r.device <;> simp [hd, h]
    · rw [if_neg (by simp [hr]), if_neg (by simp [hr])]
      refine ih _ _ ?_
      have hd : ¬ d = r.device := fun hc => hr hc.symm
      simp [hd, h]

/-- C1 (amended, positive part): the throughput stage is per-device
noninterferent — for every batch and every device id, the rows
`calculate_throughput` computes for that device are identical whether or not
any other device's samples are present in the batch. -/
theorem throughput_per_device_noninterference (batch : List TRow) (d : ℕ) :
    (calculate_throughput batch).filter (fun r => r.device == d) =
      calculate_throughput (batch.filter (fun r => r.device == d)) := by
  unfold calculate_throughput throughputRows
  rw [List.filter_map]
  have hcomp : ((fun r : TPRow => r.device == d) ∘ mkTPRow) =
      (fun dr : DRow => dr.row.device == d) := rfl
  rw [hcomp]
  rw [List.filter_comm]
  rw [filter_addDiffs d _ _ _ rfl]
  rw [List.filter_comm]
  unfold sortRows
  rw [filter_sortByKey]

set_option maxHeartbeats 1000000 in
/-- C1 (counterexample): the `BoT_mAh_per_Gbps` output of
`calculate_throughput_energy_and_bot` for device 0 changes when device 1's
samples are added to the batch, because `V_avg` is the mean voltage over the
whole merged batch (`4` alone, `7/2` with device 1 present); the per-device
output rows are not identical. -/
theorem bot_depends_on_other_devices :
    (((calculate_throughput_energy_and_bot
      [⟨0, 0, some 0, some 0, some 4000, some 1000000, some 30⟩,
       ⟨0, 10, some 1000, some 500, some 4000, some 1000000, some 30⟩,
       ⟨1, 0, some 0, some 0, some 3000, some 1000000, some 25⟩,
       ⟨1, 10, some 2000, some 1000, some 3000, some 1000000,
        some 25⟩]).filter (fun r => r.device == 0)).map (fun r => r.bot)) ≠
      ((calculate_throughput_energy_and_bot
        [⟨0, 0, some 0, some 0, some 4000, some 1000000, some 30⟩,
         ⟨0, 10, some 1000, some 500, some 4000, some 1000000,
          some 30⟩]).map (fun r => r.bot)) := by
  norm_num [calculate_throughput_energy_and_bot, sortRows, sortByKey,
    insertByKey, keyLE, calculate_throughput, throughputRows, mkTPRow,
    addDiffs, safeDiv, calculate_energy_consumption, addEnergy, mergeTE,
    mkMRow, List.filterMap_cons, Option.bind]

/-- C9: `calculate_soh_cycles` on an input whose charge-counter column is
present (with at least one valid value) but whose `battery_level` column is
absent: the body raises (`KeyError` at the `battery_level` access), the
catch-all handler swallows it, and the function returns the empty frame —
the device's entire data is discarded, nothing propagates and no partial
result is returned. -/
theorem soh_cycles_missing_battery_returns_empty (inp : SohInput)
    (default_C0 threshold : ℚ)
    (hcc : inp.hasChargeCounterUah = true)
    (hval : inp.chargeCounterUah.any (fun o => o.isSome) = true)
    (hnb : inp.hasBatteryLevel = false) :
    calculate_soh_cycles inp default_C0 threshold = emptySohFrame ∧
      (sohCyclesRun inp default_C0 threshold).isOk = false := by
  have hrun : sohCyclesRun inp default_C0 threshold =
      Except.error "KeyError: battery_level" := by
    simp [sohCyclesRun, hcc, hval, hnb]
  refine ⟨?_, ?_⟩
  · simp [calculate_soh_cycles, hrun]
  · simp [hrun, Except.isOk, Except.toBool]

/-- Witness for C9: a two-sample series with a charge counter but no
`battery_level` column yields the empty frame. -/
theorem soh_cycles_missing_battery_returns_empty_witness :
    calculate_soh_cycles
      ⟨[0, 10], true, [some 4, none], false, [], false, [], false, [], none⟩
      5000 100 = emptySohFrame ∧
    (sohCyclesRun
      ⟨[0, 10], true, [some 4, none], false, [], false, [], false, [], none⟩
      5000 100).isOk = false :=
  soh_cycles_missing_battery_returns_empty _ 5000 100 rfl (by decide) rfl

/-- C10: when the input frame has neither the `soh_true_col`
(`SoH_smooth`) column nor the `SoH_pct` column, the body of `build_windows`
raises `ValueError`, the catch-all handler prints and falls through, and the
function returns `None` instead of the documented tuple of four arrays (any
internal error takes the same `except` path through the wrapper). -/
theorem build_windows_missing_soh_returns_none (f : FeatFrame) (w : ℕ)
    (h1 : f.hasSohSmooth = false) (h2 : f.hasSohPct = false) :
    build_windows f w = none := by
  simp [build_windows, buildWindowsRun, h1, h2]

/-- Witness for C10: a two-row frame with features but no SoH columns. -/
theorem build_windows_missing_soh_returns_none_witness :
    build_windows ⟨[0, 1], [[1], [2]], false, [], false, [], false, []⟩ 1 =
      none :=
  build_windows_missing_soh_returns_none _ 1 rfl rfl

/-! ### Helper lemmas for full-charge block detection -/

theorem length_blockIds (prev : Option Bool) (c : ℕ) (l : List Bool) :
    (blockIds prev c l).length = l.length := by
  induction l generalizing prev c with
  | nil => rfl
  | cons b bs ih => simp [blockIds, ih]

theorem blockIds_append (prev : Option Bool) (c : ℕ) (l₁ l₂ : List Bool) :
    blockIds prev c (l₁ ++ l₂) =
      blockIds prev c l₁ ++
        blockIds (biState prev c l₁).1 (biState prev c l₁).2 l₂ := by
  induction l₁ generalizing prev c with
  | nil => rfl
  | cons b bs ih => simp [blockIds, biState, ih]

theorem blockIds_replicate_true (prev : Option Bool) (c m : ℕ) :
    blockIds prev c (List.replicate m true) =
      List.replicate m (if prev = some true then c else c + 1) := by
  induction m generalizing prev c with
  | zero => rfl
  | succ m ih =>
    rw [List.replicate_succ]
    simp only [blockIds]
    rw [ih]
    simp [List.replicate_succ]

theorem zipWith_flag_false (ids : List ℕ) (a : ℕ) (h : ids.length = a) :
    List.zipWith (fun f i => if f then some i else none)
      (List.replicate a false) ids = List.replicate a (none : Option ℕ) := by
  induction ids generalizing a with
  | nil => subst h; rfl
  | cons i is ih =>
    subst h
    simp only [List.length_cons, List.replicate_succ, List.zipWith_cons_cons]
    rw [ih is.length rfl]
    simp

theorem zipWith_flag_true (m k : ℕ) :
    List.zipWith (fun f i => if f then some i else none)
      (List.replicate m true) (List.replicate m k) =
      List.replicate m (some k) := by
  induction m with
  | zero => rfl
  | succ m ih =>
    simp only [List.replicate_succ, List.zipWith_cons_cons]
    rw [ih]
    simp

theorem fullBlockIds_single (rows : List BRow) (threshold : ℚ) (a m c : ℕ)
    (hflag : isFullList rows threshold =
      List.replicate a false ++ List.replicate m true ++
        List.replicate c false) :
    ∃ kk, fullBlockIds rows threshold =
      List.replicate a none ++ List.replicate m (some kk) ++
        List.replicate c none := by
  refine ⟨if (biState none 0 (List.replicate a false)).1 = some true then
    (biState none 0 (List.replicate a false)).2
    else (biState none 0 (List.replicate a false)).2 + 1, ?_⟩
  rw [fullBlockIds, hflag, List.append_assoc, blockIds_append,
    blockIds_append, blockIds_replicate_true]
  have hA : (blockIds none 0 (List.replicate a false)).length = a := by
    rw [length_blockIds, List.length_replicate]
  rw [List.zipWith_append _ _ _ _ _ (by simp [hA]),
    List.zipWith_append _ _ _ _ _ (by simp),
    zipWith_flag_false _ a hA, zipWith_flag_true,
    zipWith_flag_false _ c (by rw [length_blockIds, List.length_replicate]),
    List.append_assoc]

theorem grp_mem_spec (rows : List BRow) (threshold : ℚ) (t : ℕ × ℕ × ℚ)
    (ht : t ∈ grpRows rows threshold) :
    t.1 < rows.length ∧ some t.2.1 ∈ fullBlockIds rows threshold := by
  rcases List.mem_filterMap.mp ht with ⟨x, hx, hgx⟩
  obtain ⟨i, ob, oq⟩ := x
  cases ob with
  | none => simp at hgx
  | some b =>
    cases oq with
    | none => simp at hgx
    | some q =>
      simp only [Option.bind_some, Option.map_some] at hgx
      have ht2 : t = (i, b, q) := (Option.some.inj hgx).symm
      subst ht2
      have hzip := List.of_mem_zip hx
      have hzip2 := List.of_mem_zip hzip.2
      exact ⟨List.mem_range.mp hzip.1, hzip2.1⟩

theorem dedupConsec_all_eq (l : List ℕ) (k : ℕ) (hne : l ≠ [])
    (hall : ∀ x ∈ l, x = k) : dedupConsec l = [k] := by
  induction l with
  | nil => exact absurd rfl hne
  | cons x xs ih =>
    cases xs with
    | nil => simp [dedupConsec, hall x (by simp)]
    | cons y ys =>
      have hx := hall x (by simp)
      have hy := hall y (by simp)
      simp only [dedupConsec]
      rw [if_pos (hx.trans hy.symm)]
      exact ih (by simp) (fun z hz => hall z (List.mem_cons_of_mem _ hz))

theorem idxmaxGo_mem (l : List (ℕ × ℚ)) (bi : ℕ) (bv : ℚ) :
    idxmaxGo bi bv l = bi ∨ ∃ p ∈ l, idxmaxGo bi bv l = p.1 := by
  induction l generalizing bi bv with
  | nil => exact Or.inl rfl
  | cons p rest ih =>
    simp only [idxmaxGo]
    by_cases h : bv < p.2
    · rw [if_pos h]
      rcases ih p.1 p.2 with h2 | ⟨pp, hpp, hpe⟩
      · exact Or.inr ⟨p, by simp, h2⟩
      · exact Or.inr ⟨pp, List.mem_cons_of_mem _ hpp, hpe⟩
    · rw [if_neg h]
      rcases ih bi bv with h2 | ⟨pp, hpp, hpe⟩
      · exact Or.inl h2
      · exact Or.inr ⟨pp, List.mem_cons_of_mem _ hpp, hpe⟩

theorem filterMap_id_replicate_none (n : ℕ) :
    (List.replicate n (none : Option ℚ)).filterMap id = [] := by
  induction n with
  | zero => rfl
  | succ n ih => simp [List.replicate_succ, ih]

theorem filterMap_id_set (n i : ℕ) (v : ℚ) (h : i < n) :
    ((List.replicate n (none : Option ℚ)).set i (some v)).filterMap id =
      [v] := by
  induction n generalizing i with
  | zero => exact absurd h (Nat.not_lt_zero i)
  | succ n ih =>
    cases i with
    | zero =>
      simp [List.replicate_succ, filterMap_id_replicate_none]
    | succ i =>
      rw [List.replicate_succ, List.set_cons_succ]
      simpa using ih i (Nat.lt_of_succ_lt_succ h)

theorem set_replicate_not_all_isNone (n i : ℕ) (v : ℚ) (h : i < n) :
    ((List.replicate n (none : Option ℚ)).set i (some v)).all
      (fun o => o.isNone) = false := by
  cases hall : ((List.replicate n (none : Option ℚ)).set i (some v)).all
      (fun o => o.isNone) with
  | false => rfl
  | true =>
    exfalso
    have hmem : (some v) ∈ (List.replicate n (none : Option ℚ)).set i (some v) := by
      have hi : i < ((List.replicate n (none : Option ℚ)).set i (some v)).length := by
        simpa using h
      have hget := List.getElem_set_self (l := List.replicate n (none : Option ℚ))
        (i := i) (a := some v) (by simpa using h)
      have hm2 := List.getElem_mem hi
      rw [hget] at hm2
      exact hm2
    have := List.all_eq_true.mp hall _ hmem
    simp at this

/-- C6 (amended): for a device series whose full-charge flags form exactly
one contiguous block (battery level rising to full then discharging) with at
least one valid charge sample in it, the candidate stage of
`calculate_soh_cycles` assigns **exactly one** `Ct_mAh` candidate: it is the
95th percentile of the in-block charge values (not the peak), placed at the
index of the block's maximum charge value. -/
theorem ct_single_block_candidate (rows : List BRow) (threshold : ℚ)
    (a m c : ℕ)
    (hflag : isFullList rows threshold =
      List.replicate a false ++ List.replicate m true ++
        List.replicate c false)
    (hgrp : grpRows rows threshold ≠ []) :
    ((idxmaxBy ((grpRows rows threshold).map (fun t => (t.1, t.2.2)))).getD 0
        < rows.length) ∧
    ctColumn rows threshold =
      (List.replicate rows.length (none : Option ℚ)).set
        ((idxmaxBy ((grpRows rows threshold).map
          (fun t => (t.1, t.2.2)))).getD 0)
        (some (interpPercentile
          (sortQ ((grpRows rows threshold).map (fun t => t.2.2)))
          (95 / 100))) ∧
    (ctColumn rows threshold).filterMap id =
      [interpPercentile
        (sortQ ((grpRows rows threshold).map (fun t => t.2.2))) (95 / 100)] := by
  obtain ⟨kk, hfb⟩ := fullBlockIds_single rows threshold a m c hflag
  have hall : ∀ t ∈ grpRows rows threshold, t.2.1 = kk := by
    intro t ht
    have hspec := (grp_mem_spec rows threshold t ht).2
    rw [hfb] at hspec
    rcases List.mem_append.mp hspec with hsp | hsp
    · rcases List.mem_append.mp hsp with hsp2 | hsp2
      · cases List.eq_of_mem_replicate hsp2
      · exact Option.some.inj (List.eq_of_mem_replicate hsp2)
    · cases List.eq_of_mem_replicate hsp
  have hidx : ∀ t ∈ grpRows rows threshold, t.1 < rows.length :=
    fun t ht => (grp_mem_spec rows threshold t ht).1
  obtain ⟨t0, ts, hgrpeq⟩ : ∃ t0 ts, grpRows rows threshold = t0 :: ts := by
    cases hg : grpRows rows threshold with
    | nil => exact absurd hg hgrp
    | cons t0 ts => exact ⟨t0, ts, rfl⟩
  have hded : dedupConsec ((grpRows rows threshold).map (fun t => t.2.1)) =
      [kk] := by
    apply dedupConsec_all_eq
    · rw [hgrpeq]; simp
    · intro x hx
      rcases List.mem_map.mp hx with ⟨t, ht, hxt⟩
      rw [← hxt]
      exact hall t ht
  have hfil : (grpRows rows threshold).filter (fun t => t.2.1 == kk) =
      grpRows rows threshold := by
    apply List.filter_eq_self.mpr
    intro t ht
    simp [hall t ht]
  have hcand : ctCandidates rows threshold =
      (List.replicate rows.length (none : Option ℚ)).set
        ((idxmaxBy ((grpRows rows threshold).map
          (fun t => (t.1, t.2.2)))).getD 0)
        (some (interpPercentile
          (sortQ ((grpRows rows threshold).map (fun t => t.2.2)))
          (95 / 100))) := by
    rw [ctCandidates, hded]
    simp only [List.foldl_cons, List.foldl_nil]
    rw [hfil, hgrpeq]
    simp only [List.map_cons, idxmaxBy, Option.getD_some, List.map_map]
    rfl
  have hlt : (idxmaxBy ((grpRows rows threshold).map
      (fun t => (t.1, t.2.2)))).getD 0 < rows.length := by
    rw [hgrpeq]
    simp only [List.map_cons, idxmaxBy, Option.getD_some]
    rcases idxmaxGo_mem (ts.map (fun t => (t.1, t.2.2))) t0.1 t0.2.2
      with h | ⟨p, hp, hpe⟩
    · rw [h]
      exact hidx t0 (by rw [hgrpeq]; simp)
    · rw [hpe]
      rcases List.mem_map.mp hp with ⟨t, ht, hpt⟩
      rw [← hpt]
      exact hidx t (by rw [hgrpeq]; exact List.mem_cons_of_mem _ ht)
  have hnall : (ctCandidates rows threshold).all (fun o => o.isNone) =
      false := by
    rw [hcand]
    exact set_replicate_not_all_isNone _ _ _ hlt
  have hcol : ctColumn rows threshold = ctCandidates rows threshold := by
    rw [ctColumn, if_neg]
    rw [hnall]
    exact Bool.false_ne_true
  refine ⟨hlt, ?_, ?_⟩
  · rw [hcol, hcand]
  · rw [hcol, hcand]
    exact filterMap_id_set _ _ _ hlt

set_option maxRecDepth 10000 in
/-- C6 (counterexample): a series with one clean full-charge block
(`battery_level = [90, 100, 100, 90]`, charge `[39, 40, 41, 38]`): the
single assigned candidate is `819/20 = 40.95`, the 95th percentile of the
in-block charges `[40, 41]`, at index 2 (the block's maximum) — it is *not*
equal to the block's peak charge value `41`. -/
theorem ct_candidate_is_percentile_not_peak :
    ctColumn [⟨some 90, some 39⟩, ⟨some 100, some 40⟩, ⟨some 100, some 41⟩,
      ⟨some 90, some 38⟩] 100 = [none, none, some (819/20), none] ∧
    (819/20 : ℚ) ≠ 41 := by
  with_unfolding_all decide

/-- Witness for C6 (amended) on the same series: flags split as
`[false] ++ [true, true] ++ [false]`, the candidate sits at index 2 with
value `819/20`, and it is the only defined entry of the column. -/
theorem ct_single_block_candidate_witness :
    (((idxmaxBy ((grpRows [⟨some 90, some 39⟩, ⟨some 100, some 40⟩,
        ⟨some 100, some 41⟩, ⟨some 90, some 38⟩] 100).map
        (fun t => (t.1, t.2.2)))).getD 0 < 4) ∧
      ctColumn [⟨some 90, some 39⟩, ⟨some 100, some 40⟩, ⟨some 100, some 41⟩,
        ⟨some 90, some 38⟩] 100 =
        (List.replicate 4 (none : Option ℚ)).set
          ((idxmaxBy ((grpRows [⟨some 90, some 39⟩, ⟨some 100, some 40⟩,
            ⟨some 100, some 41⟩, ⟨some 90, some 38⟩] 100).map
            (fun t => (t.1, t.2.2)))).getD 0)
          (some (interpPercentile
            (sortQ ((grpRows [⟨some 90, some 39⟩, ⟨some 100, some 40⟩,
              ⟨some 100, some 41⟩, ⟨some 90, some 38⟩] 100).map
              (fun t => t.2.2))) (95 / 100))) ∧
      (ctColumn [⟨some 90, some 39⟩, ⟨some 100, some 40⟩, ⟨some 100, some 41⟩,
        ⟨some 90, some 38⟩] 100).filterMap id =
        [interpPercentile
          (sortQ ((grpRows [⟨some 90, some 39⟩, ⟨some 100, some 40⟩,
            ⟨some 100, some 41⟩, ⟨some 90, some 38⟩] 100).map
            (fun t => t.2.2))) (95 / 100)]) :=
  ct_single_block_candidate
    [⟨some 90, some 39⟩, ⟨some 100, some 40⟩, ⟨some 100, some 41⟩,
      ⟨some 90, some 38⟩] 100 1 2 1
    (by with_unfolding_all decide) (by with_unfolding_all decide)

end Battery
